import Mathlib

/-!
Verification of the esbuild-hmr development server.

The definitions below are a shallow embedding of the server source
(`server.ts`): the bundler metadata with reverse-dependency `parents`
sets built in the `hmr-transformer` plugin's `build.onEnd` hook, the
recursive `getReverseDependencies` traversal of the watcher's change
handler, the `transformCode` wrapper around the external swc transform,
and the sequential promise chain that broadcasts `update` / `reload`
messages to the connected WebSocket clients.

External collaborators (swc, esbuild's rebuild, the filesystem watcher)
are modelled as oracle parameters; machine-level details (bytes of the
bundle) are abstracted.  The recursion of `getReverseDependencies` has
no termination guarantee in the source (there is no visited set), so it
is embedded with an explicit fuel argument: `none` means the recursion
did not complete within the given call depth.
-/

namespace EsbuildHmr

/-- One entry of `inputs[...].imports` in the esbuild metafile.
Source type: `{ path, kind, external?, original? }`; `kind` and
`external` are never read by the server, so they are omitted. -/
structure ImportEntry where
  path : String
  original : Option String := none
deriving DecidableEq

/-- One value of the `inputs` record of the (augmented) metafile:
`{ bytes, parents?, imports, format? }`; `format` is never read. The
`parents` set (a JS `Set<string>`, iterated in insertion order) is
modelled as an ordered duplicate-free list, absent (`none`) until the
`build.onEnd` hook first adds a parent. -/
structure ModuleInfo where
  bytes : Nat
  parents : Option (List String) := none
  imports : List ImportEntry := []
deriving DecidableEq

/-- The `inputs` record of the metafile: a JS object keyed by
root-relative module path, modelled as an association list in key
insertion order. -/
abbrev Meta := List (String × ModuleInfo)

/-- JS property read `inputs[key]`: first entry with the given key. -/
def lookupModule : Meta → String → Option ModuleInfo
  | [], _ => none
  | e :: rest, k => if e.fst = k then some e.snd else lookupModule rest k

/-- `inputs[key]?.parents` of the change handler. -/
def lookupParents (meta : Meta) (k : String) : Option (List String) :=
  (lookupModule meta k).bind ModuleInfo.parents

/-- The parents recorded for a module id (empty when the module or its
`parents` set is absent). -/
def parentsOf (meta : Meta) (k : String) : List String :=
  (lookupParents meta k).getD []

/-- JS `Set.add`: append the element unless already present. -/
def setAdd (l : List String) (x : String) : List String :=
  if x ∈ l then l else l ++ [x]

/-- In-place update `metafile.inputs[child].parents = (parents ?? new Set()).add(parentName)`
performed by the `build.onEnd` hook, expressed as a keyed functional
update of the association list. -/
def updateParents : Meta → String → String → Meta
  | [], _, _ => []
  | e :: rest, child, parentName =>
    (if e.fst = child then
      (e.fst, { e.snd with parents := some (setAdd (e.snd.parents.getD []) parentName) })
    else e) :: updateParents rest child parentName

/-- One step of the `build.onEnd` loop body for a single import edge:
if the import target is missing from the metafile, warn (the message is
appended to the diagnostics log) and leave the graph untouched;
otherwise add `filename` to the target's parents set. -/
def addParentEdge (st : Meta × List String) (filename : String) (imp : ImportEntry) :
    Meta × List String :=
  match lookupModule st.1 imp.path with
  | none => (st.1, st.2 ++ [imp.path ++ " is not exist in metafile"])
  | some _ => (updateParents st.1 imp.path filename, st.2)

/-- The inner `moduleInfo.imports.forEach` loop of `build.onEnd`. -/
def processImports (st : Meta × List String) (filename : String)
    (imports : List ImportEntry) : Meta × List String :=
  imports.foldl (fun a imp => addParentEdge a filename imp) st

/-- The `build.onEnd` parents construction: iterate over the snapshot of
`Object.entries(metafile.inputs)` and add the reverse edge for every
recorded import.  Returns the augmented graph together with the ordered
list of `console.warn` diagnostics emitted for import targets missing
from the metafile. -/
def buildModuleGraph (inputs : Meta) : Meta × List String :=
  inputs.foldl (fun st e => processImports st e.fst e.snd.imports) (inputs, [])

/-- Inner loop of `getReverseDependencies`: the `parents.forEach` that
reassigns `dependencies = getReverseDependencies(parentModule, [...dependencies, parentModule])`,
with the recursive call abstracted as `rec`. -/
def getRDFold (rec : String → List String → Option (List String)) :
    List String → List String → Option (List String)
  | [], deps => some deps
  | p :: ps, deps =>
    match rec p (deps ++ [p]) with
    | none => none
    | some deps2 => getRDFold rec ps deps2

/-- `getReverseDependencies(targetModule, dependencies)` of the change
handler.  The source tracks no visited set, so the recursion is bounded
here by an explicit `fuel` call depth; `none` means the recursion did
not finish within that depth (in JS: ever-deeper recursive calls). -/
def getReverseDependencies (meta : Meta) : Nat → String → List String → Option (List String)
  | 0, _, _ => none
  | fuel + 1, target, deps =>
    match lookupParents meta target with
    | none => some deps
    | some ps => getRDFold (getReverseDependencies meta fuel) ps deps

/-- The resolved invalidation list of a change event:
`[strippedPath, ...getReverseDependencies(strippedPath)]`. -/
def resolveDependencies (meta : Meta) (fuel : Nat) (changed : String) :
    Option (List String) :=
  (getReverseDependencies meta fuel changed []).map (fun ds => changed :: ds)

/-- `{...prev, [k]: v}` on a JS object: overwrite the value at an
existing key in place, otherwise append the key. -/
def objUpsert (m : List (String × String)) (k v : String) : List (String × String) :=
  if m.any (fun e => e.fst == k) then
    m.map (fun e => if e.fst == k then (e.fst, v) else e)
  else m ++ [(k, v)]

/-- `getImportPaths(modulePath)` of the change handler: the alias map
from each import's `original` specifier to its resolved path, or `{}`
when the module has no metafile entry.  A JS `undefined` original
coerces to the property key `"undefined"`. -/
def getImportPaths (meta : Meta) (modulePath : String) : List (String × String) :=
  match lookupModule meta modulePath with
  | none => []
  | some info =>
    info.imports.foldl (fun prev curr => objUpsert prev (curr.original.getD "undefined") curr.path) []

/-- Whether `pat` occurs at the head of `s` (character lists). -/
def listStartsWith : List Char → List Char → Bool
  | [], _ => true
  | _ :: _, [] => false
  | p :: ps, c :: cs => p == c && listStartsWith ps cs

/-- Replace the first occurrence of `pat` in `s` by `repl` (character
lists); no occurrence leaves the list unchanged. -/
def replaceFirstAux (pat repl : List Char) : List Char → List Char
  | [] => []
  | c :: cs =>
    if listStartsWith pat (c :: cs) then repl ++ (c :: cs).drop pat.length
    else c :: replaceFirstAux pat repl cs

/-- JS `String.prototype.replace` with a plain-string pattern: replace
the first occurrence only (no occurrence: the string is unchanged; the
empty pattern matches at position 0). -/
def replaceFirst (s pat repl : String) : String :=
  if pat.data.isEmpty then ⟨repl.data ++ s.data⟩
  else ⟨replaceFirstAux pat.data repl.data s.data⟩

/-- JS `String.prototype.endsWith`, via the character lists. -/
def strEndsWith (s suffix : String) : Bool :=
  suffix.data.isSuffixOf s.data

/-- `stripRoot`: `path.replace(ROOT, '').substring(1)`. -/
def stripRoot (root p : String) : String :=
  ⟨((replaceFirst p root "").data.drop 1)⟩

/-- `path.join(ROOT, modulePath)` for an absolute root and a relative,
already-normalized module id. -/
def pathJoin (root p : String) : String :=
  root ++ "/" ++ p

/-- `JSON.stringify(filename)` for the plain relative paths used here
(no characters needing escapes). -/
def jsString (s : String) : String :=
  "\x22" ++ s ++ "\x22"

/-- The external swc `transform` collaborator combined with the file
read: given the stripped filename, the `runtimeModule` flag and the
`importPaths` alias map handed to `swc-plugin-global-module`, it yields
the transformed module code, or `none` when the transform rejects the
source (syntax error). -/
def Swc := String → Bool → List (String × String) → Option String

/-- The string `transformCode` builds around the transformed code: the
`window.__hot.register` call bound to the process-unique context
variable, the module body, and the default accept/dispose hook
registrations. -/
def moduleWrapper (contextVariableName filename code : String) : String :=
  "\n  var " ++ contextVariableName ++ " = window.__hot.register(" ++ jsString filename ++ ");\n\n  " ++
  code ++
  "\n  \n  " ++ contextVariableName ++ ".accept((\x7b body \x7d) => \x7b\n    console.log(\x27accepted!\x27, " ++
  jsString filename ++ ");\n    console.log(body);\n  \x7d);\n  " ++
  contextVariableName ++ ".dispose(() => \x7b\n    console.log(\x27disposed!\x27, " ++
  jsString filename ++ ");\n  \x7d);\n  "

/-- The guarded-execution block wrapped around the whole module code on
the hot-update path: `try { ... } catch(error) { alert('HMR Failed'); window.location.reload(); }`. -/
def guardedExecution (code : String) : String :=
  "try \x7b\n    " ++ code ++
  "\n  \x7d catch(error) \x7b\n    alert(\x27HMR Failed\x27);\n    window.location.reload();\x0a  \x7d"

/-- `transformCode(path, runtimeModule, importPaths)`: strip the root
from the absolute path, run swc (failure propagates before the counter
is touched), take the next `__hmr${_idx++}` context variable name, wrap
the result, and enclose the whole wrapped body in the guarded-execution
block exactly when `runtimeModule` is true.  Returns the produced code
together with the post-increment value of the shared `_idx` counter. -/
def transformCode (swc : Swc) (root : String) (idx : Nat) (p : String)
    (runtimeModule : Bool) (importPaths : List (String × String)) :
    Option (String × Nat) :=
  let filename := stripRoot root p
  match swc filename runtimeModule importPaths with
  | none => none
  | some resultCode =>
    let contextVariableName := "__hmr" ++ toString idx
    let code := moduleWrapper contextVariableName filename resultCode
    some (if runtimeModule then guardedExecution code else code, idx + 1)

/-- A wire message sent over the `/hot` WebSocket: the JSON objects
`{type:'update', body, id}` and `{type:'reload'}`. -/
inductive Message where
  | update (body : String) (id : String)
  | reload
deriving DecidableEq

/-- An observable step of the change handler: a transform attempt for a
module (with the alias map handed to it), a `socket.send` to one
client, the `context.rebuild()` call of the catch branch, or the
`TypeError` raised in the catch branch when `sharedState.context` is
still `null`. -/
inductive Action where
  | transform (modulePath : String) (importPaths : List (String × String))
  | send (client : Nat) (m : Message)
  | rebuild
  | nullContextError
deriving DecidableEq

/-- `sendToClients(message)`: one `socket.send` per connected client,
in connection order. -/
def sendToClients (clients : List Nat) (m : Message) : List Action :=
  clients.map (fun c => Action.send c m)

/-- The sequential `reverseDependencies.reduce` promise chain of the
change handler: for each module path in order, run `transformCode` on
`path.join(ROOT, modulePath)` with that module's alias map and send
`{type:'update', body: code, id: strippedPath}` to every client; on the
first failing transform, skip every remaining step and run the `catch`
handler, which calls `sharedState.context.rebuild()` — a `TypeError`
when the context was never assigned (`hasContext = false`), otherwise a
rebuild followed by a `reload` broadcast.  Returns the final `_idx`
counter, the ordered action trace, and whether a rebuild ran. -/
def processModules (swc : Swc) (root : String) (clients : List Nat) (hasContext : Bool)
    (meta : Meta) (strippedPath : String) : Nat → List String → Nat × List Action × Bool
  | idx, [] => (idx, [], false)
  | idx, m :: rest =>
    let ips := getImportPaths meta m
    match transformCode swc root idx (pathJoin root m) true ips with
    | some (code, idx2) =>
      let next := processModules swc root clients hasContext meta strippedPath idx2 rest
      (next.1,
       Action.transform m ips :: sendToClients clients (Message.update code strippedPath) ++ next.2.1,
       next.2.2)
    | none =>
      if hasContext then
        (idx, Action.transform m ips :: Action.rebuild :: sendToClients clients Message.reload, true)
      else
        (idx, [Action.transform m ips, Action.nullContextError], false)

/-- The mutable `sharedState` of the server (lines 29-41): the unique
variable counter, the esbuild build context (`null` until assigned —
and the program never assigns it), the current bundle bytes, the
augmented metafile, and the connected clients. -/
structure ServerState where
  idx : Nat
  context : Option Unit
  bundle : Option (List Nat)
  moduleMeta : Option Meta
  clients : List Nat
deriving DecidableEq

/-- The initializer of `sharedState`. -/
def initialSharedState : ServerState :=
  { idx := 0, context := none, bundle := none, moduleMeta := none, clients := [] }

/-- The outcome of a `context.rebuild()` (a full esbuild build whose
`onEnd` replaces the bundle and graph and whose `onLoad` transforms
advance the counter), abstracted as an oracle. -/
structure RebuildResult where
  idx : Nat
  bundle : List Nat
  meta : Meta
deriving DecidableEq

/-- The watcher change handler (lines 163-222): ignore anything that is
not a `change` of a `.ts` file; do nothing when no client is connected;
otherwise resolve the reverse dependencies of the stripped changed path
and run the sequential transform-and-broadcast chain.  `none` models a
thrown `TypeError` (`sharedState.moduleMeta` still `null`) or a
traversal that does not finish within `fuel` recursive calls. -/
def changeHandler (swc : Swc) (root : String) (rb : RebuildResult) (fuel : Nat)
    (st : ServerState) (event fp : String) : Option (ServerState × List Action) :=
  if event ≠ "change" ∨ strEndsWith fp ".ts" = false then some (st, [])
  else if st.clients.isEmpty then some (st, [])
  else
    match st.moduleMeta with
    | none => none
    | some meta =>
      let strippedPath := stripRoot root fp
      match getReverseDependencies meta fuel strippedPath [] with
      | none => none
      | some revDeps =>
        let res := processModules swc root st.clients st.context.isSome meta strippedPath
          st.idx (strippedPath :: revDeps)
        some (if res.2.2 then
                { st with idx := rb.idx, bundle := some rb.bundle, moduleMeta := some rb.meta }
              else { st with idx := res.1 },
              res.2.1)

/-- The ids carried by the `update` messages of a trace, in send order. -/
def updateIds (acts : List Action) : List String :=
  acts.filterMap (fun a => match a with
    | Action.send _ (Message.update _ i) => some i
    | _ => none)

/-- Whether a message is an `update`. -/
def isUpdateMsg : Message → Bool
  | Message.update _ _ => true
  | Message.reload => false

/-- Whether a message is a `reload`. -/
def isReloadMsg : Message → Bool
  | Message.reload => true
  | _ => false

/-- Whether an action is the `context.rebuild()` call. -/
def isRebuildAct : Action → Bool
  | Action.rebuild => true
  | _ => false

/-- Number of sent messages of a trace satisfying a predicate. -/
def countSent (p : Message → Bool) (acts : List Action) : Nat :=
  (acts.filterMap (fun a => match a with
    | Action.send _ m => some m
    | _ => none)).countP p

/-- Whether the graph admits a chain of `n` consecutive `parents` edges
starting at `x` (length 0 always holds). -/
def hasParentChain (meta : Meta) : Nat → String → Bool
  | 0, _ => true
  | n + 1, x =>
    match lookupParents meta x with
    | none => false
    | some ps => ps.any (fun p => hasParentChain meta n p)

/-- One `parents` edge: `b` is recorded as a parent (importer) of `a`. -/
def parentEdge (meta : Meta) (a b : String) : Prop :=
  ∃ ps, lookupParents meta a = some ps ∧ b ∈ ps

/-! Concrete instances used by the scenario claims. -/

/-- The project root used in the concrete scenarios. -/
def demoRoot : String := "/proj"

/-- Raw metafile of the chain scenario: `index.ts` imports `mid.ts`,
which imports `sub.ts` (A imports B, B imports C). -/
def chainMetaRaw : Meta :=
  [("client/index.ts", { bytes := 1, imports := [{ path := "client/mid.ts", original := some "./mid" }] }),
   ("client/mid.ts", { bytes := 1, imports := [{ path := "client/sub.ts", original := some "./sub" }] }),
   ("client/sub.ts", { bytes := 1, imports := [] })]

/-- The chain metafile after the `build.onEnd` parents construction. -/
def chainMeta : Meta := (buildModuleGraph chainMetaRaw).1

/-- Raw metafile of the diamond scenario: `D.ts` imports `A.ts` and
`B.ts`, each of which imports `C.ts`. -/
def diamondMetaRaw : Meta :=
  [("D.ts", { bytes := 1, imports := [{ path := "A.ts", original := some "./A" }, { path := "B.ts", original := some "./B" }] }),
   ("A.ts", { bytes := 1, imports := [{ path := "C.ts", original := some "./C" }] }),
   ("B.ts", { bytes := 1, imports := [{ path := "C.ts", original := some "./C" }] }),
   ("C.ts", { bytes := 1, imports := [] })]

/-- The diamond metafile after parents construction: `C.ts` has parents
`[A.ts, B.ts]`, which share the common grandparent `D.ts`. -/
def diamondMeta : Meta := (buildModuleGraph diamondMetaRaw).1

/-- Raw metafile of the cyclic scenario: `A.ts` and `B.ts` import each
other. -/
def cycMetaRaw : Meta :=
  [("A.ts", { bytes := 1, imports := [{ path := "B.ts", original := some "./B" }] }),
   ("B.ts", { bytes := 1, imports := [{ path := "A.ts", original := some "./A" }] })]

/-- The cyclic metafile after parents construction: `A.ts` is a parent
of `B.ts` and vice versa. -/
def cycMeta : Meta := (buildModuleGraph cycMetaRaw).1

/-- Raw metafile with an import target (`react`) absent from the
metafile inputs. -/
def extMetaRaw : Meta :=
  [("client/index.ts", { bytes := 1, imports := [{ path := "react", original := some "react" }, { path := "client/sub.ts", original := some "./sub" }] }),
   ("client/sub.ts", { bytes := 1, imports := [] })]

/-- An swc oracle that transforms every module successfully. -/
def swcDemo : Swc := fun f _ _ => some ("code:" ++ f)

/-- An swc oracle with a syntax error in `client/mid.ts` only. -/
def swcFailMid : Swc := fun f _ _ =>
  if f = "client/mid.ts" then none else some ("code:" ++ f)

/-- A rebuild oracle for the scenarios. -/
def demoRb : RebuildResult := { idx := 10, bundle := [1], meta := chainMetaRaw }

/-- Server state of the broadcast scenario: after the initial build
(bundle and graph set, `context` never assigned) with two connected
clients. -/
def c4State : ServerState :=
  { initialSharedState with bundle := some [0], moduleMeta := some chainMeta, clients := [0, 1] }

/-- Like `c4State` but with a single connected client. -/
def c5State : ServerState :=
  { initialSharedState with bundle := some [0], moduleMeta := some chainMeta, clients := [0] }

/-- The update body produced for module `m` at counter value `idx` in
the chain scenario with the always-succeeding swc oracle. -/
def demoBody (m : String) (idx : Nat) : String :=
  ((transformCode swcDemo demoRoot idx (pathJoin demoRoot m) true (getImportPaths chainMeta m)).map Prod.fst).getD ""

/-- `m2` extends `m1`: same keys, identical `imports` and `bytes` per
module, and every recorded parent stays recorded. -/
def MetaExtends (m1 m2 : Meta) : Prop :=
  (∀ k, (lookupModule m2 k).isSome = (lookupModule m1 k).isSome) ∧
  (∀ k i, lookupModule m1 k = some i →
    ∃ i2, lookupModule m2 k = some i2 ∧ i2.imports = i.imports ∧ i2.bytes = i.bytes) ∧
  (∀ k p, p ∈ parentsOf m1 k → p ∈ parentsOf m2 k)

/-- Server state with no connected client. -/
def c10State : ServerState :=
  { idx := 5, context := none, bundle := some [1], moduleMeta := some chainMeta, clients := [] }

/-- The result of the change event whose transform fails on
`client/mid.ts`, with one connected client and the program's actual
(never assigned) build context. -/
def c2run : ServerState × List Action :=
  (changeHandler swcFailMid demoRoot demoRb 4 c5State "change" "/proj/client/sub.ts").getD (c5State, [])

/-- The action trace of the all-successful chain change event with one
connected client. -/
def c5acts : List Action :=
  ((changeHandler swcDemo demoRoot demoRb 4 c5State "change" "/proj/client/sub.ts").getD (c5State, [])).2

/-- The (id, body) pairs of the updates sent to client 0, in order. -/
def sentUpdates (acts : List Action) : List (String × String) :=
  acts.filterMap (fun a => match a with
    | Action.send 0 (Message.update b i) => some (i, b)
    | _ => none)

/-- The send actions of a trace as (client, message) pairs. -/
def sendOf : Action → Option (Nat × Message)
  | Action.send c m => some (c, m)
  | _ => none

/-! Lemmas about the `build.onEnd` parents construction. -/

/-- An element already in a set stays; `setAdd` never removes. -/
theorem mem_setAdd_of_mem {l : List String} {x y : String} (h : x ∈ l) : x ∈ setAdd l y := by
  unfold setAdd
  split
  · exact h
  · exact List.mem_append_left _ h

/-- The added element is a member of the result of `setAdd`. -/
theorem mem_setAdd_self (l : List String) (x : String) : x ∈ setAdd l x := by
  unfold setAdd
  split
  · assumption
  · exact List.mem_append_right _ (List.mem_singleton.mpr rfl)

/-- Looking up in an updated graph: only the targeted child's `parents`
changes, by a `setAdd` of the parent name. -/
theorem lookupModule_updateParents (c p k : String) : ∀ (meta : Meta),
    lookupModule (updateParents meta c p) k =
      (lookupModule meta k).map (fun i =>
        if k = c then { i with parents := some (setAdd (i.parents.getD []) p) } else i) := by
  intro meta
  induction meta with
  | nil => rfl
  | cons e rest ih =>
    by_cases hec : e.fst = c
    · by_cases hek : e.fst = k
      · have hkc : k = c := hek.symm.trans hec
        simp [updateParents, lookupModule, hec, hek, hkc]
      · have hck : ¬ c = k := fun h => hek (hec.trans h)
        simp [updateParents, lookupModule, hec, hek, hck, ih]
    · by_cases hek : e.fst = k
      · have hkc : ¬ k = c := fun h => hec (hek.trans h)
        simp [updateParents, lookupModule, hec, hek, hkc]
      · simp [updateParents, lookupModule, hec, hek, ih]

theorem metaExtends_refl (m : Meta) : MetaExtends m m :=
  ⟨fun _ => rfl, fun _ i h => ⟨i, h, rfl, rfl⟩, fun _ _ h => h⟩

theorem metaExtends_trans {m1 m2 m3 : Meta}
    (h12 : MetaExtends m1 m2) (h23 : MetaExtends m2 m3) : MetaExtends m1 m3 := by
  refine ⟨fun k => (h23.1 k).trans (h12.1 k), fun k i h1 => ?_, fun k p hp => h23.2.2 k p (h12.2.2 k p hp)⟩
  obtain ⟨i2, h2, himp, hb⟩ := h12.2.1 k i h1
  obtain ⟨i3, h3, himp2, hb2⟩ := h23.2.1 k i2 h2
  exact ⟨i3, h3, himp2.trans himp, hb2.trans hb⟩

/-- A parents update extends the graph. -/
theorem metaExtends_updateParents (m : Meta) (c p : String) :
    MetaExtends m (updateParents m c p) := by
  refine ⟨fun k => ?_, fun k i h => ?_, fun k q hq => ?_⟩
  · rw [lookupModule_updateParents]
    cases lookupModule m k <;> simp
  · rw [lookupModule_updateParents, h]
    exact ⟨_, rfl, by split <;> rfl, by split <;> rfl⟩
  · unfold parentsOf lookupParents at *
    rw [lookupModule_updateParents]
    cases hm : lookupModule m k with
    | none => rw [hm] at hq; simp at hq
    | some i =>
      rw [hm] at hq
      by_cases hkc : k = c
      · simp only [Option.map_some, hkc, if_pos rfl, Option.bind_some]
        exact mem_setAdd_of_mem hq
      · simp only [Option.map_some, if_neg hkc, Option.bind_some]
        exact hq

/-- One import-edge step extends the graph. -/
theorem metaExtends_addParentEdge (st : Meta × List String) (f : String) (imp : ImportEntry) :
    MetaExtends st.1 (addParentEdge st f imp).1 := by
  unfold addParentEdge
  cases lookupModule st.1 imp.path with
  | none => exact metaExtends_refl _
  | some _ => exact metaExtends_updateParents _ _ _

/-- The inner imports loop extends the graph. -/
theorem metaExtends_processImports (f : String) :
    ∀ (imports : List ImportEntry) (st : Meta × List String),
      MetaExtends st.1 (processImports st f imports).1 := by
  intro imports
  induction imports with
  | nil => intro st; exact metaExtends_refl _
  | cons imp rest ih =>
    intro st
    exact metaExtends_trans (metaExtends_addParentEdge st f imp) (ih (addParentEdge st f imp))

/-- The outer entries loop extends the graph. -/
theorem metaExtends_buildFold :
    ∀ (entries : List (String × ModuleInfo)) (st : Meta × List String),
      MetaExtends st.1 (entries.foldl (fun a e => processImports a e.fst e.snd.imports) st).1 := by
  intro entries
  induction entries with
  | nil => intro st; exact metaExtends_refl _
  | cons e rest ih =>
    intro st
    exact metaExtends_trans (metaExtends_processImports e.fst e.snd.imports st) (ih _)

/-- The whole construction extends the input graph. -/
theorem metaExtends_buildModuleGraph (inputs : Meta) :
    MetaExtends inputs (buildModuleGraph inputs).1 :=
  metaExtends_buildFold inputs (inputs, [])

/-- Adding an edge whose target is present records the parent. -/
theorem addParentEdge_hit (st : Meta × List String) (f : String) (imp : ImportEntry)
    (h : (lookupModule st.1 imp.path).isSome = true) :
    f ∈ parentsOf (addParentEdge st f imp).1 imp.path := by
  obtain ⟨i, hi⟩ := Option.isSome_iff_exists.mp h
  unfold addParentEdge
  rw [hi]
  unfold parentsOf lookupParents
  rw [lookupModule_updateParents, hi]
  simp only [Option.map_some, if_pos rfl, Option.bind_some, Option.getD_some]
  exact mem_setAdd_self _ _

/-- A successful lookup splits the association list at its first match. -/
theorem lookupModule_split : ∀ (meta : Meta) (k : String) (i : ModuleInfo),
    lookupModule meta k = some i → ∃ l1 l2, meta = l1 ++ (k, i) :: l2 := by
  intro meta
  induction meta with
  | nil => intro k i h; exact absurd h (by simp [lookupModule])
  | cons e rest ih =>
    intro k i h
    by_cases he : e.fst = k
    · refine ⟨[], rest, ?_⟩
      simp only [lookupModule, if_pos he] at h
      obtain rfl := Option.some.inj h
      simp [← he]
    · simp only [lookupModule, if_neg he] at h
      obtain ⟨l1, l2, hsplit⟩ := ih k i h
      exact ⟨e :: l1, l2, by simp [hsplit]⟩

/-- The inner imports loop splits over list append. -/
theorem processImports_append (st : Meta × List String) (f : String) (j1 j2 : List ImportEntry) :
    processImports st f (j1 ++ j2) = processImports (processImports st f j1) f j2 := by
  simp [processImports]

/-- Inner-loop membership: processing an imports list containing `imp`
whose target is present records `A` as a parent of the target. -/
theorem processImports_parents_mem (A : String) (imp : ImportEntry) :
    ∀ (j1 j2 : List ImportEntry) (st : Meta × List String),
      (lookupModule st.1 imp.path).isSome = true →
      A ∈ parentsOf (processImports st A (j1 ++ imp :: j2)).1 imp.path := by
  intro j1 j2 st hsome
  rw [processImports_append]
  have hst2 : (lookupModule (processImports st A j1).1 imp.path).isSome = true := by
    rw [(metaExtends_processImports A j1 st).1]
    exact hsome
  have hhit := addParentEdge_hit (processImports st A j1) A imp hst2
  exact (metaExtends_processImports A j2 (addParentEdge (processImports st A j1) A imp)).2.2 _ _ hhit

/-- Outer-loop membership: folding the entries list, which contains the
pair `(A, info)`, records `A` as a parent of each of its present import
targets. -/
theorem foldGraph_parents_mem (A : String) (info : ModuleInfo) (imp : ImportEntry)
    (himp : imp ∈ info.imports) :
    ∀ (l1 : List (String × ModuleInfo)) (l2 : List (String × ModuleInfo)) (st : Meta × List String),
      (lookupModule st.1 imp.path).isSome = true →
      A ∈ parentsOf ((l1 ++ (A, info) :: l2).foldl (fun a e => processImports a e.fst e.snd.imports) st).1 imp.path := by
  intro l1
  induction l1 with
  | nil =>
    intro l2 st hsome
    rw [List.nil_append, List.foldl_cons]
    obtain ⟨j1, j2, hjs⟩ := List.append_of_mem himp
    have hmem : A ∈ parentsOf (processImports st A info.imports).1 imp.path := by
      rw [hjs]
      exact processImports_parents_mem A imp j1 j2 st hsome
    exact (metaExtends_buildFold l2 _).2.2 _ _ hmem
  | cons e l1' ih =>
    intro l2 st hsome
    rw [List.cons_append, List.foldl_cons]
    refine ih l2 (processImports st e.fst e.snd.imports) ?_
    rw [(metaExtends_processImports e.fst e.snd.imports st).1]
    exact hsome

/-- C6 (confirmed): after graph construction from the bundler metadata
(the `build.onEnd` step), for every module `A` whose imports list
contains an import resolving to module `B`, where `B` is present in the
metadata, `B`'s parents set contains `A`. -/
theorem buildGraph_parents_complete (inputs : Meta) (A B : String) (info : ModuleInfo)
    (imp : ImportEntry) (hA : lookupModule inputs A = some info) (himp : imp ∈ info.imports)
    (hpath : imp.path = B) (hB : (lookupModule inputs B).isSome = true) :
    A ∈ parentsOf (buildModuleGraph inputs).1 B := by
  subst hpath
  obtain ⟨l1, l2, hsplit⟩ := lookupModule_split inputs A info hA
  subst hsplit
  exact foldGraph_parents_mem A info imp himp l1 l2 _ hB

/-- Witness for C6 at the diamond metadata: `A.ts` imports `C.ts`, so
`C.ts` gets `A.ts` as a parent. -/
theorem Claim6_witness : "A.ts" ∈ parentsOf (buildModuleGraph diamondMetaRaw).1 "C.ts" :=
  buildGraph_parents_complete diamondMetaRaw "A.ts" "C.ts"
    { bytes := 1, imports := [{ path := "C.ts", original := some "./C" }] }
    { path := "C.ts", original := some "./C" } rfl (by decide) rfl rfl

/-! Lemmas about the missing-import-target warn branch. -/

/-- The diagnostics log only grows under an edge step. -/
theorem log_mono_addParentEdge (st : Meta × List String) (f : String) (imp : ImportEntry)
    {m : String} (h : m ∈ st.2) : m ∈ (addParentEdge st f imp).2 := by
  unfold addParentEdge
  cases hl : lookupModule st.1 imp.path with
  | none => exact List.mem_append_left _ h
  | some i => exact h

/-- The diagnostics log only grows under the inner imports loop. -/
theorem log_mono_processImports (f : String) :
    ∀ (imports : List ImportEntry) (st : Meta × List String) {m : String},
      m ∈ st.2 → m ∈ (processImports st f imports).2 := by
  intro imports
  induction imports with
  | nil => intro st m h; exact h
  | cons imp rest ih =>
    intro st m h
    exact ih (addParentEdge st f imp) (log_mono_addParentEdge st f imp h)

/-- The diagnostics log only grows under the outer entries loop. -/
theorem log_mono_buildFold :
    ∀ (entries : List (String × ModuleInfo)) (st : Meta × List String) {m : String},
      m ∈ st.2 → m ∈ (entries.foldl (fun a e => processImports a e.fst e.snd.imports) st).2 := by
  intro entries
  induction entries with
  | nil => intro st m h; exact h
  | cons e rest ih =>
    intro st m h
    exact ih _ (log_mono_processImports e.fst e.snd.imports st h)

/-- A missing import target leaves the graph untouched and appends the
warn diagnostic. -/
theorem addParentEdge_miss (st : Meta × List String) (f : String) (imp : ImportEntry)
    (h : lookupModule st.1 imp.path = none) :
    addParentEdge st f imp = (st.1, st.2 ++ [imp.path ++ " is not exist in metafile"]) := by
  simp [addParentEdge, h]

/-- A lookup that misses in the original graph also misses after any
extension (keys are preserved). -/
theorem lookup_none_of_extends {m1 m2 : Meta} (hext : MetaExtends m1 m2) {k : String}
    (h : lookupModule m1 k = none) : lookupModule m2 k = none := by
  cases hl : lookupModule m2 k with
  | none => rfl
  | some i =>
    have := hext.1 k
    rw [hl, h] at this
    simp at this

/-- Inner-loop warn membership: processing an imports list containing
an import whose target is absent emits the warn diagnostic. -/
theorem processImports_warn_mem (A : String) (imp : ImportEntry) :
    ∀ (j1 j2 : List ImportEntry) (st : Meta × List String),
      lookupModule st.1 imp.path = none →
      (imp.path ++ " is not exist in metafile") ∈ (processImports st A (j1 ++ imp :: j2)).2 := by
  intro j1 j2 st hnone
  unfold processImports
  rw [List.foldl_append, List.foldl_cons]
  have hnone2 : lookupModule (j1.foldl (fun a i => addParentEdge a A i) st).1 imp.path = none :=
    lookup_none_of_extends (metaExtends_processImports A j1 st) hnone
  rw [addParentEdge_miss _ A imp hnone2]
  refine log_mono_processImports A j2 _ ?_
  exact List.mem_append_right _ (List.mem_singleton.mpr rfl)

/-- Outer-loop warn membership. -/
theorem foldGraph_warn_mem (A : String) (info : ModuleInfo) (imp : ImportEntry)
    (himp : imp ∈ info.imports) :
    ∀ (l1 : List (String × ModuleInfo)) (l2 : List (String × ModuleInfo)) (st : Meta × List String),
      lookupModule st.1 imp.path = none →
      (imp.path ++ " is not exist in metafile") ∈
        ((l1 ++ (A, info) :: l2).foldl (fun a e => processImports a e.fst e.snd.imports) st).2 := by
  intro l1
  induction l1 with
  | nil =>
    intro l2 st hnone
    rw [List.nil_append, List.foldl_cons]
    obtain ⟨j1, j2, hjs⟩ := List.append_of_mem himp
    refine log_mono_buildFold l2 _ ?_
    have : (imp.path ++ " is not exist in metafile") ∈ (processImports st A info.imports).2 := by
      rw [hjs]
      exact processImports_warn_mem A imp j1 j2 st hnone
    exact this
  | cons e l1' ih =>
    intro l2 st hnone
    rw [List.cons_append, List.foldl_cons]
    exact ih l2 _ (lookup_none_of_extends (metaExtends_processImports e.fst e.snd.imports st) hnone)

/-- C7 (confirmed): when a module's import targets an id absent from the
bundler metadata, graph construction does not fail: the warn diagnostic
is emitted, the module's forward `imports` edge is kept unchanged, and
no entry (hence no reverse `parents` pointer) is created for the
missing target. -/
theorem buildGraph_missing_target (inputs : Meta) (A : String) (info : ModuleInfo)
    (imp : ImportEntry) (hA : lookupModule inputs A = some info) (himp : imp ∈ info.imports)
    (hmiss : lookupModule inputs imp.path = none) :
    (imp.path ++ " is not exist in metafile") ∈ (buildModuleGraph inputs).2 ∧
    (∃ i2, lookupModule (buildModuleGraph inputs).1 A = some i2 ∧ i2.imports = info.imports) ∧
    lookupModule (buildModuleGraph inputs).1 imp.path = none := by
  refine ⟨?_, ?_, ?_⟩
  · obtain ⟨l1, l2, hsplit⟩ := lookupModule_split inputs A info hA
    have hgoal := foldGraph_warn_mem A info imp himp l1 l2 (inputs, []) hmiss
    rw [hsplit] at hgoal ⊢
    exact hgoal
  · obtain ⟨i2, h2, himp2, _⟩ := (metaExtends_buildModuleGraph inputs).2.1 A info hA
    exact ⟨i2, h2, himp2⟩
  · exact lookup_none_of_extends (metaExtends_buildModuleGraph inputs) hmiss

/-- Witness for C7 at the metadata whose `react` import target is
missing. -/
theorem Claim7_witness :
    ("react" ++ " is not exist in metafile") ∈ (buildModuleGraph extMetaRaw).2 ∧
    (∃ i2, lookupModule (buildModuleGraph extMetaRaw).1 "client/index.ts" = some i2 ∧
      i2.imports = [{ path := "react", original := some "react" }, { path := "client/sub.ts", original := some "./sub" }]) ∧
    lookupModule (buildModuleGraph extMetaRaw).1 "react" = none :=
  buildGraph_missing_target extMetaRaw "client/index.ts"
    { bytes := 1, imports := [{ path := "react", original := some "react" }, { path := "client/sub.ts", original := some "./sub" }] }
    { path := "react", original := some "react" } rfl (by decide) rfl

/-! Lemmas about the `getReverseDependencies` traversal. -/

/-- The inner `parents.forEach` loop only appends entries that are
proper ancestors of the module whose parents are being visited, given
that the recursive call does so. -/
theorem getRDFold_sound (meta : Meta) (target : String)
    (rec : String → List String → Option (List String))
    (hrec : ∀ p deps l, rec p deps = some l →
      ∃ extra, l = deps ++ extra ∧ ∀ y ∈ extra, Relation.TransGen (parentEdge meta) p y) :
    ∀ (ps deps l : List String), (∀ p ∈ ps, parentEdge meta target p) →
      getRDFold rec ps deps = some l →
      ∃ extra, l = deps ++ extra ∧ ∀ y ∈ extra, Relation.TransGen (parentEdge meta) target y := by
  intro ps
  induction ps with
  | nil =>
    intro deps l _ h
    refine ⟨[], ?_, by simp⟩
    simpa [getRDFold] using (Option.some.inj h).symm
  | cons p ps ih =>
    intro deps l hps h
    unfold getRDFold at h
    cases hr : rec p (deps ++ [p]) with
    | none => rw [hr] at h; exact absurd h (by simp)
    | some d2 =>
      rw [hr] at h
      obtain ⟨e1, he1, hanc1⟩ := hrec p (deps ++ [p]) d2 hr
      obtain ⟨e2, he2, hanc2⟩ := ih d2 l (fun q hq => hps q (List.mem_cons_of_mem p hq)) h
      have hedge : parentEdge meta target p := hps p (List.mem_cons_self p ps)
      refine ⟨[p] ++ e1 ++ e2, by simp [he2, he1], ?_⟩
      intro y hy
      rcases List.mem_append.mp hy with hy' | hy2
      · rcases List.mem_append.mp hy' with hyp | hy1
        · obtain rfl := List.mem_singleton.mp hyp
          exact Relation.TransGen.single hedge
        · exact Relation.TransGen.head hedge (hanc1 y hy1)
      · exact hanc2 y hy2

/-- Everything `getReverseDependencies` appends beyond the accumulator
is a proper ancestor of the start module along `parents` edges. -/
theorem getReverseDependencies_sound (meta : Meta) :
    ∀ (fuel : Nat) (target : String) (deps l : List String),
      getReverseDependencies meta fuel target deps = some l →
      ∃ extra, l = deps ++ extra ∧ ∀ y ∈ extra, Relation.TransGen (parentEdge meta) target y := by
  intro fuel
  induction fuel with
  | zero =>
    intro t d l h
    exact absurd h (by simp [getReverseDependencies])
  | succ n ih =>
    intro t d l h
    have hstep : getReverseDependencies meta (n + 1) t d =
        match lookupParents meta t with
        | none => some d
        | some ps => getRDFold (getReverseDependencies meta n) ps d := rfl
    rw [hstep] at h
    cases hps : lookupParents meta t with
    | none =>
      rw [hps] at h
      refine ⟨[], ?_, by simp⟩
      simpa using (Option.some.inj h).symm
    | some ps =>
      rw [hps] at h
      exact getRDFold_sound meta t (getReverseDependencies meta n) (ih) ps d l
        (fun p hp => ⟨ps, hps, hp⟩) h

/-- The last edge of a transitive chain. -/
theorem transGen_last {α : Type} {r : α → α → Prop} {a b : α}
    (h : Relation.TransGen r a b) : ∃ c, r c b := by
  induction h with
  | single h1 => exact ⟨_, h1⟩
  | tail _ h1 _ => exact ⟨_, h1⟩

/-- A successful `lookupModule` result is a member of the list. -/
theorem lookupModule_mem : ∀ (meta : Meta) (k : String) (i : ModuleInfo),
    lookupModule meta k = some i → (k, i) ∈ meta := by
  intro meta
  induction meta with
  | nil => intro k i h; exact absurd h (by simp [lookupModule])
  | cons e rest ih =>
    intro k i h
    by_cases he : e.fst = k
    · simp only [lookupModule, if_pos he] at h
      obtain rfl := Option.some.inj h
      have heq : (k, e.snd) = e := by rw [← he]
      rw [heq]
      exact List.mem_cons_self e rest
    · simp only [lookupModule, if_neg he] at h
      exact List.mem_cons_of_mem e (ih k i h)

/-- One-step unfolding of the traversal at positive fuel. -/
theorem getRD_succ (meta : Meta) (n : Nat) (t : String) (deps : List String) :
    getReverseDependencies meta (n + 1) t deps =
      match lookupParents meta t with
      | none => some deps
      | some ps => getRDFold (getReverseDependencies meta n) ps deps := rfl

/-- One-step unfolding of the inner loop. -/
theorem getRDFold_cons (rec : String → List String → Option (List String))
    (p : String) (ps deps : List String) :
    getRDFold rec (p :: ps) deps =
      match rec p (deps ++ [p]) with
      | none => none
      | some d2 => getRDFold rec ps d2 := rfl

/-- The normal form of the diamond graph after parents construction. -/
theorem diamondMeta_eq : diamondMeta =
    [("D.ts", { bytes := 1, parents := none, imports := [{ path := "A.ts", original := some "./A" }, { path := "B.ts", original := some "./B" }] }),
     ("A.ts", { bytes := 1, parents := some ["D.ts"], imports := [{ path := "C.ts", original := some "./C" }] }),
     ("B.ts", { bytes := 1, parents := some ["D.ts"], imports := [{ path := "C.ts", original := some "./C" }] }),
     ("C.ts", { bytes := 1, parents := some ["A.ts", "B.ts"], imports := [] })] := by decide

/-- No module of the diamond graph has `C.ts` among its parents, so no
parents-chain returns to `C.ts`. -/
theorem diamond_no_cycle : ¬ Relation.TransGen (parentEdge diamondMeta) "C.ts" "C.ts" := by
  intro h
  obtain ⟨z, hz⟩ := transGen_last h
  obtain ⟨ps, hps, hmem⟩ := hz
  unfold lookupParents at hps
  cases hl : lookupModule diamondMeta z with
  | none => rw [hl] at hps; exact absurd hps (by simp)
  | some i =>
    rw [hl] at hps
    have hmem2 := lookupModule_mem diamondMeta z i hl
    rw [diamondMeta_eq] at hmem2
    simp only [List.mem_cons, List.not_mem_nil, or_false] at hmem2
    rcases hmem2 with h1 | h1 | h1 | h1 <;> rw [Prod.ext_iff] at h1 <;>
      obtain ⟨hz1, hi1⟩ := h1 <;> subst hi1
    · exact absurd hps (by simp)
    · obtain rfl := (Option.some.inj hps)
      exact absurd hmem (by decide)
    · obtain rfl := (Option.some.inj hps)
      exact absurd hmem (by decide)
    · obtain rfl := (Option.some.inj hps)
      exact absurd hmem (by decide)

/-- C1 (amended): whenever the traversal completes, the resolution
starts with the changed id, contains it exactly once provided no
`parents` cycle passes through it, and every listed id is reachable
from the changed id along `parents` edges; other ids may however be
listed once per distinct parents-path, so two ancestors sharing a
grandparent (a diamond) list that grandparent twice, and a cycle
through the changed id keeps the traversal from completing at all. -/
theorem resolveDependencies_sound (meta : Meta) (fuel : Nat) (changed : String)
    (tail : List String)
    (h : getReverseDependencies meta fuel changed [] = some tail)
    (hnc : ¬ Relation.TransGen (parentEdge meta) changed changed) :
    resolveDependencies meta fuel changed = some (changed :: tail) ∧
    (changed :: tail).head? = some changed ∧
    (changed :: tail).count changed = 1 ∧
    ∀ y ∈ changed :: tail, Relation.ReflTransGen (parentEdge meta) changed y := by
  obtain ⟨extra, hextra, hanc⟩ := getReverseDependencies_sound meta fuel changed [] tail h
  rw [List.nil_append] at hextra
  subst hextra
  refine ⟨by simp [resolveDependencies, h], rfl, ?_, ?_⟩
  · have hnot : changed ∉ tail := fun hmem => hnc (hanc changed hmem)
    rw [List.count_cons_self, List.count_eq_zero.mpr hnot]
  · intro y hy
    rcases List.mem_cons.mp hy with rfl | hy2
    · exact Relation.ReflTransGen.refl
    · exact (hanc y hy2).to_reflTransGen

/-- Witness for the amended C1 at the diamond graph. -/
theorem Claim1_amended_witness :
    resolveDependencies diamondMeta 4 "C.ts" = some ("C.ts" :: ["A.ts", "D.ts", "B.ts", "D.ts"]) ∧
    ("C.ts" :: ["A.ts", "D.ts", "B.ts", "D.ts"]).head? = some "C.ts" ∧
    ("C.ts" :: ["A.ts", "D.ts", "B.ts", "D.ts"]).count "C.ts" = 1 ∧
    ∀ y ∈ "C.ts" :: ["A.ts", "D.ts", "B.ts", "D.ts"],
      Relation.ReflTransGen (parentEdge diamondMeta) "C.ts" y :=
  resolveDependencies_sound diamondMeta 4 "C.ts" ["A.ts", "D.ts", "B.ts", "D.ts"]
    (by decide) diamond_no_cycle

/-- C1 counterexample: in the diamond graph (A and B import C, D
imports A and B) the resolution of a change to `C.ts` lists the shared
grandparent `D.ts` twice — the traversal keeps no visited set, so the
no-duplicates part of the claim fails. -/
theorem Claim1_counterexample :
    resolveDependencies diamondMeta 4 "C.ts" = some ["C.ts", "A.ts", "D.ts", "B.ts", "D.ts"] ∧
    ¬ (["C.ts", "A.ts", "D.ts", "B.ts", "D.ts"] : List String).Nodup := by
  exact ⟨by decide, by decide⟩

/-- In the two-module cyclic graph the traversal exhausts any fuel:
each of the two modules recurses into the other forever. -/
theorem cyc_getRD_none : ∀ (fuel : Nat) (deps : List String),
    getReverseDependencies cycMeta fuel "A.ts" deps = none ∧
    getReverseDependencies cycMeta fuel "B.ts" deps = none := by
  intro fuel
  induction fuel with
  | zero => intro deps; exact ⟨rfl, rfl⟩
  | succ n ih =>
    intro deps
    have hA : lookupParents cycMeta "A.ts" = some ["B.ts"] := by decide
    have hB : lookupParents cycMeta "B.ts" = some ["A.ts"] := by decide
    constructor
    · simp only [getRD_succ, hA, getRDFold_cons, (ih (deps ++ ["B.ts"])).2]
    · simp only [getRD_succ, hB, getRDFold_cons, (ih (deps ++ ["A.ts"])).1]

/-- C3 counterexample: for the cyclic graph built from two mutually
importing modules, no recursion depth completes the traversal from
`A.ts` — the source recursion, which keeps no visited set, does not
terminate on cyclic `parents` edges. -/
theorem Claim3_counterexample :
    ¬ ∃ fuel : Nat, (resolveDependencies cycMeta fuel "A.ts").isSome = true := by
  rintro ⟨fuel, h⟩
  rw [resolveDependencies, (cyc_getRD_none fuel []).1] at h
  simp at h

/-- One-step unfolding of the chain check at positive depth. -/
theorem hasParentChain_succ (meta : Meta) (n : Nat) (x : String) :
    hasParentChain meta (n + 1) x =
      match lookupParents meta x with
      | none => false
      | some ps => ps.any (fun p => hasParentChain meta n p) := rfl

/-- The inner loop completes when each recursive call does. -/
theorem getRDFold_isSome (rec : String → List String → Option (List String)) :
    ∀ (ps : List String), (∀ p ∈ ps, ∀ deps, (rec p deps).isSome = true) →
      ∀ deps, (getRDFold rec ps deps).isSome = true := by
  intro ps
  induction ps with
  | nil => intro _ deps; simp [getRDFold]
  | cons p ps ih =>
    intro hall deps
    rw [getRDFold_cons]
    cases hr : rec p (deps ++ [p]) with
    | none =>
      have hsome := hall p (List.mem_cons_self p ps) (deps ++ [p])
      rw [hr] at hsome
      exact absurd hsome (by simp)
    | some d2 => exact ih (fun q hq => hall q (List.mem_cons_of_mem p hq)) d2

/-- The traversal completes whenever every chain of `parents` edges from
the start module is shorter than the provided call depth. -/
theorem getRD_terminates (meta : Meta) :
    ∀ (fuel : Nat) (target : String), hasParentChain meta fuel target = false →
      ∀ deps, (getReverseDependencies meta fuel target deps).isSome = true := by
  intro fuel
  induction fuel with
  | zero => intro t h _; exact absurd h (by simp [hasParentChain])
  | succ n ih =>
    intro t h deps
    rw [getRD_succ]
    cases hps : lookupParents meta t with
    | none => simp
    | some ps =>
      simp only [hasParentChain_succ, hps] at h
      have hall : ∀ p ∈ ps, hasParentChain meta n p = false := by
        intro p hp
        cases hval : hasParentChain meta n p with
        | false => rfl
        | true => exact absurd (List.any_eq_true.mpr ⟨p, hp, hval⟩) (by simp [h])
      exact getRDFold_isSome (getReverseDependencies meta n) ps
        (fun p hp deps2 => ih p (hall p hp) deps2) deps

/-- C3 (amended): the reverse-dependency traversal terminates from any
module whose parents-chains are bounded by the call depth — in
particular on every finite acyclic graph — but a cyclic graph (A parent
of B, B parent of A) makes it recurse without bound, as the
counterexample shows. -/
theorem resolveDependencies_terminates (meta : Meta) (fuel : Nat) (changed : String)
    (h : hasParentChain meta fuel changed = false) :
    (resolveDependencies meta fuel changed).isSome = true := by
  rw [resolveDependencies]
  cases hr : getReverseDependencies meta fuel changed [] with
  | none =>
    have hsome := getRD_terminates meta fuel changed h []
    rw [hr] at hsome
    exact absurd hsome (by simp)
  | some l => simp

/-- Witness for the amended C3 at the chain graph. -/
theorem Claim3_amended_witness :
    hasParentChain chainMeta 4 "client/sub.ts" = false ∧
    (resolveDependencies chainMeta 4 "client/sub.ts").isSome = true :=
  ⟨by decide, resolveDependencies_terminates chainMeta 4 "client/sub.ts" (by decide)⟩

/-- C8 (confirmed): when `transformCode` is called with the hot-update
flag true, the entire wrapped module code it returns is enclosed in the
guarded-execution block whose catch branch calls
`window.location.reload()`; when the flag is false, the bare wrapper is
returned with no guard added. -/
theorem transformCode_hot_guard (swc : Swc) (root : String) (idx : Nat) (p : String)
    (ips : List (String × String)) (c c2 : String)
    (h : swc (stripRoot root p) true ips = some c)
    (h2 : swc (stripRoot root p) false ips = some c2) :
    transformCode swc root idx p true ips =
      some (guardedExecution (moduleWrapper ("__hmr" ++ toString idx) (stripRoot root p) c), idx + 1) ∧
    guardedExecution (moduleWrapper ("__hmr" ++ toString idx) (stripRoot root p) c) =
      "try \x7b\n    " ++ moduleWrapper ("__hmr" ++ toString idx) (stripRoot root p) c ++
        "\n  \x7d catch(error) \x7b\n    alert(\x27HMR Failed\x27);\n    window.location.reload();\x0a  \x7d" ∧
    transformCode swc root idx p false ips =
      some (moduleWrapper ("__hmr" ++ toString idx) (stripRoot root p) c2, idx + 1) := by
  refine ⟨?_, rfl, ?_⟩
  · simp [transformCode, h]
  · simp [transformCode, h2]

/-- Witness for C8 at a concrete module of the chain scenario. -/
theorem Claim8_witness :
    transformCode swcDemo demoRoot 7 "/proj/client/sub.ts" true [] =
      some (guardedExecution (moduleWrapper ("__hmr" ++ toString 7) (stripRoot demoRoot "/proj/client/sub.ts") "code:client/sub.ts"), 7 + 1) ∧
    guardedExecution (moduleWrapper ("__hmr" ++ toString 7) (stripRoot demoRoot "/proj/client/sub.ts") "code:client/sub.ts") =
      "try \x7b\n    " ++ moduleWrapper ("__hmr" ++ toString 7) (stripRoot demoRoot "/proj/client/sub.ts") "code:client/sub.ts" ++
        "\n  \x7d catch(error) \x7b\n    alert(\x27HMR Failed\x27);\n    window.location.reload();\x0a  \x7d" ∧
    transformCode swcDemo demoRoot 7 "/proj/client/sub.ts" false [] =
      some (moduleWrapper ("__hmr" ++ toString 7) (stripRoot demoRoot "/proj/client/sub.ts") "code:client/sub.ts", 7 + 1) :=
  transformCode_hot_guard swcDemo demoRoot 7 "/proj/client/sub.ts" []
    "code:client/sub.ts" "code:client/sub.ts" rfl rfl

/-- C9 (confirmed): a changed module id with no entry in the module
graph resolves to the singleton list of the changed id itself, the
alias map for it is empty, and the broadcast chain proceeds to the
transform step for it with that empty alias map. -/
theorem resolver_untracked_module (meta : Meta) (fuel : Nat) (changed : String)
    (h : lookupModule meta changed = none) :
    resolveDependencies meta (fuel + 1) changed = some [changed] ∧
    getImportPaths meta changed = [] ∧
    ∀ (swc : Swc) (root : String) (clients : List Nat) (hc : Bool) (idx : Nat),
      (processModules swc root clients hc meta changed idx [changed]).2.1.head? =
        some (Action.transform changed []) := by
  have hips : getImportPaths meta changed = [] := by simp [getImportPaths, h]
  have hps : lookupParents meta changed = none := by simp [lookupParents, h]
  refine ⟨?_, hips, ?_⟩
  · simp [resolveDependencies, getRD_succ, hps]
  · intro swc root clients hc idx
    simp only [processModules, hips]
    cases htc : transformCode swc root idx (pathJoin root changed) true [] with
    | none => cases hc <;> simp
    | some pr => simp

/-- Witness for C9 with an id that the chain metadata does not know. -/
theorem Claim9_witness :
    resolveDependencies chainMeta 4 "client/new.ts" = some ["client/new.ts"] ∧
    getImportPaths chainMeta "client/new.ts" = [] ∧
    (processModules swcDemo demoRoot [0] false chainMeta "client/new.ts" 0 ["client/new.ts"]).2.1.head? =
      some (Action.transform "client/new.ts" []) := by
  have h := resolver_untracked_module chainMeta 3 "client/new.ts" rfl
  exact ⟨h.1, h.2.1, h.2.2 swcDemo demoRoot [0] false 0⟩

/-- C10 (confirmed): when no client is connected at the time of a
change event, the handler performs no transform, sends no message,
triggers no rebuild and leaves the shared state (counter, bundle,
graph) unchanged — the event is dropped, not queued. -/
theorem changeHandler_no_clients (swc : Swc) (root : String) (rb : RebuildResult)
    (fuel : Nat) (st : ServerState) (event fp : String) (h : st.clients = []) :
    changeHandler swc root rb fuel st event fp = some (st, []) := by
  unfold changeHandler
  split
  · rfl
  · simp [h]

/-- Witness for C10. -/
theorem Claim10_witness :
    changeHandler swcDemo demoRoot demoRb 4 c10State "change" "/proj/client/sub.ts" =
      some (c10State, []) :=
  changeHandler_no_clients swcDemo demoRoot demoRb 4 c10State "change" "/proj/client/sub.ts" rfl

/-- C2 (code bug): at a change event with resolved set
[sub, mid, index] whose transform fails on `mid`, the handler has by
then already broadcast the update for `sub` (one update, not zero), and
the catch branch dereferences `sharedState.context` — initialized to
null at startup and never assigned anywhere in the program — so it
raises a TypeError instead of rebuilding: no rebuild runs and no
`reload` message is ever sent. -/
theorem Claim2_code_behavior :
    resolveDependencies chainMeta 4 "client/sub.ts" =
      some ["client/sub.ts", "client/mid.ts", "client/index.ts"] ∧
    swcFailMid (stripRoot demoRoot (pathJoin demoRoot "client/mid.ts")) true
      (getImportPaths chainMeta "client/mid.ts") = none ∧
    (changeHandler swcFailMid demoRoot demoRb 4 c5State "change" "/proj/client/sub.ts").isSome = true ∧
    countSent isUpdateMsg c2run.2 = 1 ∧
    countSent isReloadMsg c2run.2 = 0 ∧
    c2run.2.countP isRebuildAct = 0 ∧
    c2run.2.getLast? = some Action.nullContextError :=
  ⟨rfl, rfl, rfl, rfl, rfl, rfl, rfl⟩

/-- C5 (code bug): in the chain scenario every `update` message carries
`id = "client/sub.ts"` — the changed path, hard-coded at the send site —
while the bodies are the transforms of sub, mid and index in turn, so
the second and third messages name a module other than the one whose
runtime-loadable code is in their body. -/
theorem Claim5_code_behavior :
    (sentUpdates c5acts).map Prod.fst = ["client/sub.ts", "client/sub.ts", "client/sub.ts"] ∧
    (sentUpdates c5acts).map Prod.snd =
      [demoBody "client/sub.ts" 0, demoBody "client/mid.ts" 1, demoBody "client/index.ts" 2] ∧
    ("client/sub.ts" : String) ≠ "client/mid.ts" :=
  ⟨rfl, rfl, by decide⟩

/-- C4 counterexample: in the chain scenario no `update` message carries
`client/mid.ts` (module B) in its id field — every one of the six
updates is tagged with the changed id `client/sub.ts` — so the claimed
"update messages for C, then B, then A" are not what is sent. -/
theorem Claim4_counterexample :
    (changeHandler swcDemo demoRoot demoRb 4 c4State "change" "/proj/client/sub.ts").map
      (fun r => updateIds r.2) = some (List.replicate 6 "client/sub.ts") ∧
    "client/mid.ts" ∉ List.replicate 6 "client/sub.ts" :=
  ⟨rfl, by decide⟩

/-- C4 (amended): the change on C resolves to [C, B, A]; the
broadcaster transforms and broadcasts in exactly that order — each
update going to every connected client (client 0 then client 1) before
the next module is processed — with bodies the transformed code of C,
then B, then A; however each message's id field carries C, the changed
path, rather than the module whose code is in its body. -/
theorem Claim4_amended_thm :
    resolveDependencies chainMeta 4 "client/sub.ts" =
      some ["client/sub.ts", "client/mid.ts", "client/index.ts"] ∧
    (changeHandler swcDemo demoRoot demoRb 4 c4State "change" "/proj/client/sub.ts").map
      (fun r => r.2.filterMap sendOf) =
      some [(0, Message.update (demoBody "client/sub.ts" 0) "client/sub.ts"),
            (1, Message.update (demoBody "client/sub.ts" 0) "client/sub.ts"),
            (0, Message.update (demoBody "client/mid.ts" 1) "client/sub.ts"),
            (1, Message.update (demoBody "client/mid.ts" 1) "client/sub.ts"),
            (0, Message.update (demoBody "client/index.ts" 2) "client/sub.ts"),
            (1, Message.update (demoBody "client/index.ts" 2) "client/sub.ts")] :=
  ⟨rfl, rfl⟩

end EsbuildHmr
